import Mathlib

/-!
Verification of the retrieval/indexing core of the cognitoai repository.

The Python sources embedded here (shallowly) are:
* backend/document_rag.py — chunk_text, DocumentStore (add_document,
  remove_document, _rebuild_index, find_relevant_chunks, get_context_for_query)
* backend/server.py — decompose_query, deep_search
* tools/info/web_search.py — the result-formatting stage of
  search_web_standalone (step 5: URL de-duplication)

Machine floats are modelled by rationals; the external collaborators
(TF-IDF vectorizer / cosine similarity, DuckDuckGo, the embedding model,
the HTTP layer) are parameters of the embedded functions.
-/

/-! ### Python string primitives -/

/-- Helper for pyWords: walk the characters, collecting the current
word (in reverse) and closing it at every whitespace character. -/
def splitWordsAux : List Char → List Char → List String
  | [], acc => if acc.isEmpty then [] else [String.mk acc.reverse]
  | c :: rest, acc =>
    if c.isWhitespace then
      (if acc.isEmpty then [] else [String.mk acc.reverse]) ++ splitWordsAux rest []
    else splitWordsAux rest (c :: acc)

/-- Python str.split() with no argument: split on whitespace runs,
dropping empty pieces.  Used for both the chunker's word list and
decompose_query's word list, and it also describes the token content of
the normalized text re.sub(r'\s+', ' ', text).strip(). -/
def pyWords (s : String) : List String :=
  splitWordsAux s.toList []

/-- Python ' '.join(words): the normalized text / a chunk string. -/
def joinWords (ws : List String) : String :=
  String.intercalate " " ws

/-- Python substring containment: needle in haystack. -/
def strContains (haystack needle : String) : Bool :=
  (List.range (haystack.toList.length + 1)).any
    (fun i => needle.toList.isPrefixOf (haystack.toList.drop i))

/-- Number of positions of haystack at which the needle occurs
(used only to exhibit duplicated source URLs in a fused output). -/
def strCount (haystack needle : String) : Nat :=
  ((List.range (haystack.toList.length + 1)).filter
    (fun i => needle.toList.isPrefixOf (haystack.toList.drop i))).length

/-- The largest n such that the last n tokens of xs are the first n
tokens of ys: how many tokens two consecutive chunks actually share. -/
def sharedTokenRun (xs ys : List String) : Nat :=
  ((List.range (min xs.length ys.length + 1)).filter
    (fun n => xs.drop (xs.length - n) = ys.take n)).foldr max 0

/-! ### Chunker (document_rag.py, chunk_text, lines 140–175)

The while-loop

    while start < len(words):
        end = start + chunk_size
        chunks.append(' '.join(words[start:end]))
        start = end - overlap
        if start >= len(words):
            break

is embedded with explicit fuel; a result of none means the loop was
still running when the fuel ran out.  Nat subtraction in
start + cs - ov agrees with Python's int arithmetic whenever
ov ≤ start + cs, which covers every configuration analysed here
(ov < cs for the sliding claims, ov = cs for the divergence claim). -/

def chunkLoop (words : List String) (cs ov : Nat) : Nat → Nat → Option (List (List String))
  | _, 0 => none
  | start, fuel + 1 =>
    if start < words.length then
      let c := (words.drop start).take cs
      let s := start + cs - ov
      if words.length ≤ s then some [c]
      else (chunkLoop words cs ov s fuel).map (fun L => c :: L)
    else some []

/-- chunk_text(text, chunk_size, overlap): normalize whitespace, split
into words; a text of at most chunk_size words is returned whole (empty
text gives no chunks); otherwise run the sliding-window loop.  The fuel
words.length + 1 is sufficient for every terminating configuration,
since the loop runs at most once per word. -/
def chunk_text (text : String) (cs ov : Nat) : Option (List String) :=
  let words := pyWords text
  if words.length ≤ cs then
    if words.isEmpty then some [] else some [joinWords words]
  else
    (chunkLoop words cs ov 0 (words.length + 1)).map (fun L => L.map joinWords)

/-! ### Chunker lemmas -/

lemma chunkLoop_spec (words : List String) (cs ov : Nat) (hov : ov < cs) :
    ∀ (fuel start : Nat), start < words.length →
      words.length ≤ start + fuel * (cs - ov) →
      ∃ L, chunkLoop words cs ov start fuel = some L ∧
        (∀ i, i < L.length ↔ start + i * (cs - ov) < words.length) ∧
        (∀ i (h : i < L.length),
          L.get ⟨i, h⟩ = (words.drop (start + i * (cs - ov))).take cs) := by
  intro fuel
  induction fuel with
  | zero =>
    intro start hlt hle
    simp only [Nat.mul_zero, Nat.zero_mul, Nat.add_zero] at hle
    omega
  | succ n ih =>
    intro start hlt hle
    have hstep : 0 < cs - ov := by omega
    have hs : start + cs - ov = start + (cs - ov) := by omega
    by_cases hstop : words.length ≤ start + cs - ov
    · refine ⟨[(words.drop start).take cs], ?_, ?_, ?_⟩
      · simp [chunkLoop, hlt, hstop]
      · intro i
        simp only [List.length_singleton]
        constructor
        · intro hi
          have hi0 : i = 0 := by omega
          subst hi0
          simpa using hlt
        · intro hi
          by_contra hge
          push_neg at hge
          have h1 : cs - ov ≤ i * (cs - ov) := by
            calc cs - ov = 1 * (cs - ov) := by ring
            _ ≤ i * (cs - ov) := Nat.mul_le_mul_right _ hge
          omega
      · intro i h
        have : i = 0 := by simpa using h
        subst this
        simp
    · push_neg at hstop
      have hle' : words.length ≤ (start + cs - ov) + n * (cs - ov) := by
        have : (n + 1) * (cs - ov) = n * (cs - ov) + (cs - ov) := by ring
        omega
      obtain ⟨L, hL, hlen, hget⟩ := ih (start + cs - ov) hstop hle'
      refine ⟨(words.drop start).take cs :: L, ?_, ?_, ?_⟩
      · simp only [chunkLoop, if_pos hlt]
        rw [if_neg (by omega), hL]
        rfl
      · intro i
        cases i with
        | zero => simpa using hlt
        | succ j =>
          have hj := hlen j
          have harith : (start + cs - ov) + j * (cs - ov) = start + (j + 1) * (cs - ov) := by
            have : (j + 1) * (cs - ov) = j * (cs - ov) + (cs - ov) := by ring
            omega
          simp only [List.length_cons, Nat.succ_lt_succ_iff]
          rw [hj, harith]
      · intro i h
        cases i with
        | zero => simp
        | succ j =>
          have hj : j < L.length := by simpa using h
          have harith : (start + cs - ov) + j * (cs - ov) = start + (j + 1) * (cs - ov) := by
            have : (j + 1) * (cs - ov) = j * (cs - ov) + (cs - ov) := by ring
            omega
          have := hget j hj
          simpa [harith] using this

lemma window_overlap (words : List String) (cs ov a : Nat) (hov : ov ≤ cs) :
    ((words.drop (a + (cs - ov))).take cs).take ov =
      ((words.drop a).take cs).drop (cs - ov) := by
  rw [List.drop_take, List.drop_drop, List.take_take]
  congr 1
  omega

lemma window_overlap_length (words : List String) (cs ov a : Nat) (hov : ov ≤ cs)
    (hfull : ((words.drop a).take cs).length = cs) :
    (((words.drop (a + (cs - ov))).take cs).take ov).length = ov := by
  simp only [List.length_take, List.length_drop] at hfull ⊢
  omega

/-- C1 (amended).  With overlap < target_size and more than target_size
normalized tokens, chunk_text emits one chunk per window of target_size
tokens, the window start advancing by target_size − overlap tokens each
step until it reaches or passes the end of the token sequence; the first
ov tokens of each chunk always coincide with the tokens its predecessor
holds past position target_size − overlap, and when the predecessor is a
full window of target_size tokens that common run has length exactly
`overlap`.  (The unamended claim — EVERY consecutive pair shares exactly
`overlap` tokens, only the final chunk being shorter — fails when the
second-to-last window is itself cut short by the end of the text; see the
counterexample.)  The worked example of the spec holds as written. -/
theorem chunk_text_sliding_window :
    (chunk_text "a b c d e f g h" 3 1 = some ["a b c", "c d e", "e f g", "g h"]) ∧
    ∀ (text : String) (cs ov : Nat), ov < cs → cs < (pyWords text).length →
      ∃ L : List (List String),
        chunk_text text cs ov = some (L.map joinWords) ∧
        (∀ i, i < L.length ↔ i * (cs - ov) < (pyWords text).length) ∧
        (∀ i (h : i < L.length),
          L.get ⟨i, h⟩ = ((pyWords text).drop (i * (cs - ov))).take cs) ∧
        (∀ i (h : i + 1 < L.length),
          (L.get ⟨i + 1, h⟩).take ov = (L.get ⟨i, Nat.lt_of_succ_lt h⟩).drop (cs - ov)) ∧
        (∀ i (h : i + 1 < L.length),
          (L.get ⟨i, Nat.lt_of_succ_lt h⟩).length = cs →
            ((L.get ⟨i + 1, h⟩).take ov).length = ov) := by
  constructor
  · decide
  intro text cs ov hov hlen
  set words := pyWords text with hw
  have hfuel : words.length ≤ 0 + (words.length + 1) * (cs - ov) := by
    have h1 : words.length + 1 ≤ (words.length + 1) * (cs - ov) :=
      Nat.le_mul_of_pos_right _ (by omega)
    omega
  obtain ⟨L, hL, hiff, hget⟩ :=
    chunkLoop_spec words cs ov hov (words.length + 1) 0 (by omega) hfuel
  refine ⟨L, ?_, ?_, ?_, ?_, ?_⟩
  · unfold chunk_text
    rw [← hw, if_neg (by omega), hL]
    rfl
  · intro i
    simpa using hiff i
  · intro i h
    simpa using hget i h
  · intro i h
    have h1 := hget (i + 1) h
    have h0 := hget i (Nat.lt_of_succ_lt h)
    rw [h1, h0]
    have harith : (i + 1) * (cs - ov) = i * (cs - ov) + (cs - ov) := by ring
    rw [Nat.zero_add, Nat.zero_add, harith]
    exact window_overlap words cs ov (i * (cs - ov)) (Nat.le_of_lt hov)
  · intro i h hfull
    have h1 := hget (i + 1) h
    have h0 := hget i (Nat.lt_of_succ_lt h)
    rw [h0] at hfull
    rw [h1]
    have harith : (i + 1) * (cs - ov) = i * (cs - ov) + (cs - ov) := by ring
    rw [Nat.zero_add] at hfull ⊢
    rw [harith]
    exact window_overlap_length words cs ov (i * (cs - ov)) (Nat.le_of_lt hov) hfull

/-- Witness for C1: the amended theorem instantiated on the spec's own
example text with target_size 3 and overlap 1. -/
theorem chunk_text_sliding_window_witness :
    ∃ L : List (List String),
      chunk_text "a b c d e f g h" 3 1 = some (L.map joinWords) ∧
      (∀ i, i < L.length ↔ i * (3 - 1) < (pyWords "a b c d e f g h").length) ∧
      (∀ i (h : i < L.length),
        L.get ⟨i, h⟩ = ((pyWords "a b c d e f g h").drop (i * (3 - 1))).take 3) ∧
      (∀ i (h : i + 1 < L.length),
        (L.get ⟨i + 1, h⟩).take 1 = (L.get ⟨i, Nat.lt_of_succ_lt h⟩).drop (3 - 1)) ∧
      (∀ i (h : i + 1 < L.length),
        (L.get ⟨i, Nat.lt_of_succ_lt h⟩).length = 3 →
          ((L.get ⟨i + 1, h⟩).take 1).length = 1) :=
  chunk_text_sliding_window.2 "a b c d e f g h" 3 1 (by decide) (by decide)

/-- Counterexample for C1 as stated: on 5 tokens with target_size 4 and
overlap 2 the emitted chunks are "a b c d", "c d e", "e"; the second and
third chunks share only the single token "e", not overlap = 2 tokens,
because the second window was already truncated by the end of the text
(and the final one-token chunk cannot share two tokens with anything). -/
theorem chunk_text_overlap_cex :
    chunk_text "a b c d e" 4 2 = some ["a b c d", "c d e", "e"] ∧
    sharedTokenRun (pyWords "c d e") (pyWords "e") = 1 ∧
    sharedTokenRun (pyWords "c d e") (pyWords "e") ≠ 2 := by
  decide

/-- C4 (code bug).  chunk_text performs no validation of the
configuration: with overlap = chunk_size (here 3 = 3) on a text of more
than chunk_size words, the window start is recomputed as
start + chunk_size − overlap = start and never advances, so the Python
while-loop never terminates.  In the fueled embedding this shows as the
loop exhausting every finite fuel (result none), and chunk_text — which
allots the fuel sufficient for every terminating run — returns none
instead of rejecting the configuration up front as the spec requires. -/
theorem chunk_text_no_overlap_guard :
    pyWords "a b c d" = ["a", "b", "c", "d"] ∧
    (∀ fuel, chunkLoop ["a", "b", "c", "d"] 3 3 0 fuel = none) ∧
    chunk_text "a b c d" 3 3 = none := by
  have hw : pyWords "a b c d" = ["a", "b", "c", "d"] := by decide
  have hloop : ∀ fuel, chunkLoop ["a", "b", "c", "d"] 3 3 0 fuel = none := by
    intro fuel
    induction fuel with
    | zero => rfl
    | succ n ih => simp [chunkLoop, ih]
  refine ⟨hw, hloop, ?_⟩
  unfold chunk_text
  rw [hw, if_neg (by decide), hloop]
  rfl

/-! ### Document store (document_rag.py, DocumentStore, lines 14–119)

Python dict semantics for self.documents: an association list whose
update-in-place keeps the position of an existing key and whose
insertion appends.  The TF-IDF vectorizer and the cosine similarities it
yields are external collaborators: find_relevant_chunks takes the
similarity row (one rational per indexed chunk) as a parameter, and
self.vectorizer is None is mirrored by the hasVectorizer flag that
_rebuild_index sets exactly when the chunk list is non-empty. -/

structure Doc where
  id : String
  filename : String
  text : String
  chunks : List String
  chunk_count : Nat
deriving DecidableEq

structure Store where
  documents : List (String × Doc)
  all_chunks : List (String × String × Nat)
  hasVectorizer : Bool
deriving DecidableEq

/-- DocumentStore.__init__ -/
def emptyStore : Store := ⟨[], [], false⟩

/-- self.documents[doc_id] = doc with Python dict semantics. -/
def dictInsert (k : String) (v : Doc) (d : List (String × Doc)) : List (String × Doc) :=
  if d.any (fun p => p.1 = k) then d.map (fun p => if p.1 = k then (k, v) else p)
  else d ++ [(k, v)]

/-- The flat chunk index _rebuild_index derives: one
(doc_id, chunk_text, chunk_idx) triple per chunk of every stored
document, in document order. -/
def chunkIndex (docs : List (String × Doc)) : List (String × String × Nat) :=
  docs.flatMap (fun p => p.2.chunks.enum.map (fun e => (p.1, e.2, e.1)))

/-- _rebuild_index: recompute self.all_chunks and refit the vectorizer
(present exactly when there is at least one chunk). -/
def rebuildIndex (docs : List (String × Doc)) : Store :=
  let ac := chunkIndex docs
  { documents := docs, all_chunks := ac, hasVectorizer := !ac.isEmpty }

/-- add_document: store (replacing any document with the same id) and
rebuild.  The summary dict the Python method returns is derived data and
not modelled. -/
def add_document (store : Store) (doc_id filename text : String) (chunks : List String) : Store :=
  rebuildIndex (dictInsert doc_id ⟨doc_id, filename, text, chunks, chunks.length⟩ store.documents)

/-- remove_document: delete if present (then rebuild) and report whether
the id was known. -/
def remove_document (store : Store) (doc_id : String) : Store × Bool :=
  if store.documents.any (fun p => p.1 = doc_id) then
    (rebuildIndex (store.documents.filter (fun p => p.1 ≠ doc_id)), true)
  else (store, false)

/-- self.documents[doc_id] read access. -/
def pyLookup (d : List (String × Doc)) (k : String) : Option Doc :=
  (d.find? (fun p => p.1 = k)).map (fun p => p.2)

inductive StoreOp where
  | add (doc_id filename text : String) (chunks : List String)
  | remove (doc_id : String)

def applyOp (s : Store) : StoreOp → Store
  | .add id f t c => add_document s id f t c
  | .remove id => (remove_document s id).1

def applyOps (ops : List StoreOp) : Store := ops.foldl applyOp emptyStore

/-! ### Similarity ranking (document_rag.py, find_relevant_chunks, lines 77–104)

np.argsort (default quicksort/introsort) is modelled as the stable
ascending argsort — indices sorted by the key (similarity value, index).
This coincides with NumPy bit for bit on small arrays (introsort runs a
stable insertion sort below its cutoff) and with kind='stable' in
general.  The float threshold 0.05 is the rational 1/20. -/

def minSimilarity : ℚ := ⟨1, 20, by norm_num, by norm_num⟩

lemma minSimilarity_eq : minSimilarity = 1 / 20 := by
  rw [minSimilarity, Rat.mk'_eq_divInt, Rat.divInt_eq_div]
  norm_num

/-- Ascending comparison of two chunk indices: by similarity value, then
by index (the stable tie-break of the model). -/
def keyLE (sims : List ℚ) (i j : Nat) : Prop :=
  sims.getD i 0 < sims.getD j 0 ∨ (sims.getD i 0 = sims.getD j 0 ∧ i ≤ j)

instance keyLE.instDecidableRel (sims : List ℚ) : DecidableRel (keyLE sims) := fun i j => by
  unfold keyLE
  infer_instance

instance keyLE.instIsTotal (sims : List ℚ) : IsTotal Nat (keyLE sims) := by
  constructor
  intro i j
  rcases lt_trichotomy (sims.getD i 0) (sims.getD j 0) with h | h | h
  · exact Or.inl (Or.inl h)
  · rcases Nat.le_total i j with hij | hij
    · exact Or.inl (Or.inr ⟨h, hij⟩)
    · exact Or.inr (Or.inr ⟨h.symm, hij⟩)
  · exact Or.inr (Or.inl h)

instance keyLE.instIsTrans (sims : List ℚ) : IsTrans Nat (keyLE sims) := by
  constructor
  intro a b c hab hbc
  rcases hab with hab | ⟨hab, hab'⟩ <;> rcases hbc with hbc | ⟨hbc, hbc'⟩
  · exact Or.inl (hab.trans hbc)
  · exact Or.inl (hbc ▸ hab)
  · exact Or.inl (hab ▸ hbc)
  · exact Or.inr ⟨hab.trans hbc, hab'.trans hbc'⟩

/-- np.argsort(similarities): the index permutation sorting the
similarity row ascending. -/
def argsortAsc (sims : List ℚ) : List Nat :=
  List.insertionSort (keyLE sims) (List.range sims.length)

/-- np.argsort(similarities)[::-1][:top_k] -/
def topIndices (sims : List ℚ) (top_k : Nat) : List Nat :=
  ((argsortAsc sims).reverse).take top_k

structure SearchHit where
  doc_id : String
  filename : String
  chunk_index : Nat
  text : String
  similarity : ℚ
deriving DecidableEq

/-- The result dict built for one index of the top-indices loop.  The
Python code reads self.documents[doc_id] unconditionally; the id is
always present there (the store invariant), so the default "" of the
modelled lookup is never used. -/
def hitAt (store : Store) (sims : List ℚ) (idx : Nat) : Option SearchHit :=
  match store.all_chunks.get? idx with
  | some t =>
    some { doc_id := t.1,
           filename := ((pyLookup store.documents t.1).map Doc.filename).getD "",
           chunk_index := t.2.2, text := t.2.1, similarity := sims.getD idx 0 }
  | none => none

/-- find_relevant_chunks: guard the empty corpus, rank by similarity,
keep the top_k indices, and keep each one only when its similarity
exceeds the 0.05 threshold. -/
def find_relevant_chunks (store : Store) (sims : List ℚ) (top_k : Nat) : List SearchHit :=
  if store.all_chunks.isEmpty || !store.hasVectorizer then []
  else (topIndices sims top_k).filterMap
    (fun idx => if minSimilarity < sims.getD idx 0 then hitAt store sims idx else none)

/-- get_context_for_query: format the relevant chunks, one block per
hit, joined by the fixed separator; empty string when nothing matched. -/
def get_context_for_query (store : Store) (sims : List ℚ) (top_k : Nat) : String :=
  let hits := find_relevant_chunks store sims top_k
  if hits.isEmpty then ""
  else String.intercalate "\n\n---\n\n"
    (hits.map (fun h => "[From: " ++ h.filename ++ "]\n" ++ h.text))

/-- Modelled from the spec: "A minimum similarity threshold …
filters out near-zero matches BEFORE truncation to top_k" — the
filter-then-truncate ranking that C8 compares against the
implementation's truncate-then-filter. -/
def specFilterThenTruncate (sims : List ℚ) (top_k : Nat) : List Nat :=
  (((argsortAsc sims).reverse).filter
    (fun i => decide (minSimilarity < sims.getD i 0))).take top_k

/-! ### Ranking lemmas -/

lemma argsortAsc_sorted (sims : List ℚ) :
    (argsortAsc sims).Sorted (keyLE sims) :=
  List.sorted_insertionSort _ _

lemma argsortAsc_nodup (sims : List ℚ) : (argsortAsc sims).Nodup :=
  ((List.perm_insertionSort (keyLE sims) (List.range sims.length)).symm).nodup
    (List.nodup_range _)

/-- Reversing the ascending argsort gives indices strictly descending in
the key (similarity value, index): each earlier index has either a
strictly larger similarity or an equal similarity and a strictly larger
position. -/
lemma argsortAsc_reverse_pairwise (sims : List ℚ) :
    ((argsortAsc sims).reverse).Pairwise
      (fun i j => sims.getD j 0 < sims.getD i 0 ∨
        (sims.getD i 0 = sims.getD j 0 ∧ j < i)) := by
  rw [List.pairwise_reverse]
  have h := (argsortAsc_sorted sims).and (argsortAsc_nodup sims)
  refine h.imp ?_
  rintro a b ⟨hk, hne⟩
  rcases hk with hk | ⟨heq, hle⟩
  · exact Or.inl hk
  · exact Or.inr ⟨heq.symm, Nat.lt_of_le_of_ne hle hne⟩

lemma topIndices_filter_pairwise (sims : List ℚ) (k : Nat) :
    ((topIndices sims k).filter
        (fun i => decide (minSimilarity < sims.getD i 0))).Pairwise
      (fun i j => sims.getD j 0 < sims.getD i 0 ∨
        (sims.getD i 0 = sims.getD j 0 ∧ j < i)) :=
  List.Pairwise.sublist ((List.filter_sublist _).trans (List.take_sublist _ _))
    (argsortAsc_reverse_pairwise sims)

lemma filterMap_ite_eq_filter_filterMap {α β : Type _} (l : List α)
    (p : α → Prop) [DecidablePred p] (f : α → Option β) :
    l.filterMap (fun a => if p a then f a else none) =
      (l.filter (fun a => decide (p a))).filterMap f := by
  induction l with
  | nil => rfl
  | cons a t ih =>
    by_cases h : p a <;>
      simp [List.filter_cons, List.filterMap_cons, h, ih]

lemma find_relevant_chunks_eq (store : Store) (sims : List ℚ) (k : Nat) :
    find_relevant_chunks store sims k =
      if store.all_chunks.isEmpty || !store.hasVectorizer then []
      else ((topIndices sims k).filter
          (fun i => decide (minSimilarity < sims.getD i 0))).filterMap
        (hitAt store sims) := by
  unfold find_relevant_chunks
  split
  · rfl
  · exact filterMap_ite_eq_filter_filterMap _ _ _

lemma hitAt_similarity (store : Store) (sims : List ℚ) (i : Nat)
    {h : SearchHit} (hh : hitAt store sims i = some h) :
    h.similarity = sims.getD i 0 := by
  unfold hitAt at hh
  rcases hg : store.all_chunks.get? i with _ | t <;> rw [hg] at hh
  · exact absurd hh (by simp)
  · cases hh
    rfl

/-- A Boolean predicate that only ever turns from true to false along a
list commutes with truncation: filtering the first k elements is the
same as taking the first k filtered elements. -/
lemma take_filter_of_antitone {α : Type _} (p : α → Bool) :
    ∀ (l : List α) (k : Nat), l.Pairwise (fun a b => p b = true → p a = true) →
      (l.take k).filter p = (l.filter p).take k := by
  intro l
  induction l with
  | nil => intro k _; simp
  | cons a t ih =>
    intro k h
    rcases h with _ | ⟨ha, ht⟩
    cases k with
    | zero => simp
    | succ m =>
      by_cases hp : p a = true
      · simp [List.filter_cons, hp, List.take_succ_cons, ih m ht]
      · have hall : ∀ b ∈ t, ¬ p b = true := fun b hb hpb => hp (ha b hb hpb)
        have h1 : t.filter p = [] := List.filter_eq_nil_iff.mpr hall
        have h2 : (t.take m).filter p = [] :=
          List.filter_eq_nil_iff.mpr
            (fun b hb => hall b ((List.take_sublist m t).subset hb))
        simp [List.take_succ_cons, List.filter_cons, hp, h1, h2]

/-- C3 (amended).  find_relevant_chunks returns hits in descending order
of similarity, but ties are broken in REVERSE chunk insertion order, not
insertion order: np.argsort sorts ascending (stably, by (value, index))
and the code then reverses the whole permutation, so equal-similarity
chunks surface larger-index first.  Re-querying an unchanged index is
deterministic by construction. -/
theorem find_relevant_chunks_ranking (store : Store) (sims : List ℚ) (k : Nat) :
    (find_relevant_chunks store sims k).Pairwise
      (fun a b => b.similarity ≤ a.similarity) ∧
    ((topIndices sims k).filter
        (fun i => decide (minSimilarity < sims.getD i 0))).Pairwise
      (fun i j => sims.getD j 0 < sims.getD i 0 ∨
        (sims.getD i 0 = sims.getD j 0 ∧ j < i)) := by
  refine ⟨?_, topIndices_filter_pairwise sims k⟩
  rw [find_relevant_chunks_eq]
  split
  · simp
  · rw [List.pairwise_filterMap]
    refine (topIndices_filter_pairwise sims k).imp ?_
    intro i j hij
    intro b hb b' hb'
    rw [hitAt_similarity store sims i hb, hitAt_similarity store sims j hb']
    rcases hij with h | ⟨h, _⟩
    · exact le_of_lt h
    · exact le_of_eq h.symm

/-- Counterexample for C3 as stated: a store holding one document whose
two chunks are identical, so both score the same similarity 1 against
the query; the chunk inserted first (index 0) comes back SECOND — the
returned order is [1, 0], not the insertion order [0, 1]. -/
theorem find_relevant_chunks_tie_cex :
    ((find_relevant_chunks
          (applyOps [StoreOp.add "d" "f.txt" "x x" ["x", "x"]]) [1, 1] 5).map
        (fun h => (h.chunk_index, h.similarity))) = [(1, 1), (0, 1)] ∧
    [((1 : Nat), (1 : ℚ)), (0, 1)] ≠ [(0, 1), (1, 1)] := by
  constructor
  · decide
  · decide

/-- C8 (confirmed).  Every hit find_relevant_chunks returns has
similarity strictly above the 0.05 threshold; at most top_k hits are
returned; and because the kept indices are sorted descending by
similarity, truncating to top_k and then filtering by the threshold
yields exactly the same index list as the spec's filter-then-truncate
ranking, so the returned set is precisely the highest-scoring
above-threshold chunks. -/
theorem find_relevant_chunks_threshold (store : Store) (sims : List ℚ) (k : Nat) :
    (∀ h ∈ find_relevant_chunks store sims k, minSimilarity < h.similarity) ∧
    (find_relevant_chunks store sims k).length ≤ k ∧
    (topIndices sims k).filter (fun i => decide (minSimilarity < sims.getD i 0)) =
      specFilterThenTruncate sims k := by
  refine ⟨?_, ?_, ?_⟩
  · intro h hmem
    rw [find_relevant_chunks_eq] at hmem
    rcases hx : store.all_chunks.isEmpty || !store.hasVectorizer with _ | _
    · rw [hx] at hmem
      simp only [Bool.false_eq_true, if_false] at hmem
      obtain ⟨i, hi, hhit⟩ := List.mem_filterMap.mp hmem
      have hp := List.of_mem_filter hi
      rw [hitAt_similarity store sims i hhit]
      exact of_decide_eq_true hp
    · rw [hx] at hmem
      simp at hmem
  · rw [find_relevant_chunks_eq]
    split
    · simp
    · calc (((topIndices sims k).filter _).filterMap (hitAt store sims)).length
          ≤ ((topIndices sims k).filter
              (fun i => decide (minSimilarity < sims.getD i 0))).length :=
            List.length_filterMap_le _ _
      _ ≤ (topIndices sims k).length := List.length_filter_le _ _
      _ ≤ k := by
            unfold topIndices
            rw [List.length_take]
            exact min_le_left _ _
  · unfold topIndices specFilterThenTruncate
    refine take_filter_of_antitone _ _ k ?_
    refine (argsortAsc_reverse_pairwise sims).imp ?_
    intro i j hij hj
    have hj' : minSimilarity < sims.getD j 0 := of_decide_eq_true hj
    rcases hij with h | ⟨h, _⟩
    · exact decide_eq_true (hj'.trans h)
    · exact decide_eq_true (h ▸ hj')

/-- C9 (confirmed).  Querying with an empty corpus returns the empty
hit list (the guard fires before any collaborator is consulted), and
get_context_for_query renders an empty hit list — in particular any
query on an empty corpus, and any query matching nothing — as the empty
string rather than an error. -/
theorem empty_corpus_queries (store : Store) (sims : List ℚ) (k : Nat) :
    (store.all_chunks = [] → find_relevant_chunks store sims k = []) ∧
    (find_relevant_chunks store sims k = [] →
      get_context_for_query store sims k = "") := by
  constructor
  · intro h
    unfold find_relevant_chunks
    rw [h]
    simp
  · intro h
    unfold get_context_for_query
    rw [h]
    rfl

/-- Witness for C9: the freshly initialised (empty) store. -/
theorem empty_corpus_queries_witness :
    find_relevant_chunks emptyStore [] 5 = [] ∧
    get_context_for_query emptyStore [] 5 = "" := by
  have h := empty_corpus_queries emptyStore [] 5
  exact ⟨h.1 rfl, h.2 (h.1 rfl)⟩

/-! ### Store invariant lemmas -/

lemma keys_dictInsert (k : String) (v : Doc) (d : List (String × Doc)) :
    (dictInsert k v d).map Prod.fst =
      if d.any (fun p => p.1 = k) then d.map Prod.fst
      else d.map Prod.fst ++ [k] := by
  unfold dictInsert
  split
  · rw [List.map_map]
    refine List.map_congr_left ?_
    intro p _
    by_cases hp : p.1 = k
    · simp [hp]
    · simp [hp]
  · simp

lemma nodup_keys_dictInsert (k : String) (v : Doc) (d : List (String × Doc))
    (h : (d.map Prod.fst).Nodup) :
    ((dictInsert k v d).map Prod.fst).Nodup := by
  rw [keys_dictInsert]
  split
  · exact h
  · rename_i hany
    rw [List.nodup_append]
    refine ⟨h, List.nodup_singleton k, ?_⟩
    intro a ha hb
    rw [List.mem_singleton] at hb
    subst hb
    obtain ⟨p, hp, hpk⟩ := List.mem_map.mp ha
    exact hany (List.any_eq_true.mpr ⟨p, hp, decide_eq_true hpk⟩)

lemma find?_dictInsert (k : String) (v : Doc) (d : List (String × Doc)) :
    (dictInsert k v d).find? (fun p => p.1 = k) = some (k, v) := by
  unfold dictInsert
  by_cases h : d.any (fun p => p.1 = k)
  · rw [if_pos h]
    induction d with
    | nil => simp at h
    | cons a t ih =>
      rw [List.map_cons]
      by_cases ha : a.1 = k
      · rw [if_pos ha]
        simp [List.find?_cons]
      · rw [if_neg ha]
        have ht : t.any (fun p => p.1 = k) := by
          rcases List.any_eq_true.mp h with ⟨p, hp, hpk⟩
          rcases List.mem_cons.mp hp with rfl | hp'
          · exact absurd (of_decide_eq_true hpk) ha
          · exact List.any_eq_true.mpr ⟨p, hp', hpk⟩
        rw [List.find?_cons_of_neg _ (by simpa using ha)]
        exact ih ht
  · rw [if_neg h]
    induction d with
    | nil => simp [List.find?_cons]
    | cons a t ih =>
      have ha : ¬ a.1 = k := by
        intro hk
        exact h (List.any_eq_true.mpr ⟨a, List.mem_cons_self a t, decide_eq_true hk⟩)
      have ht : ¬ t.any (fun p => p.1 = k) := by
        intro hk
        rcases List.any_eq_true.mp hk with ⟨p, hp, hpk⟩
        exact h (List.any_eq_true.mpr ⟨p, List.mem_cons_of_mem a hp, hpk⟩)
      rw [List.cons_append, List.find?_cons_of_neg _ (by simpa using ha)]
      exact ih ht

/-- The two-part invariant of the store: document ids are unique, and
the flat chunk index is exactly the chunk index derived from the
currently stored documents. -/
def StoreInv (s : Store) : Prop :=
  (s.documents.map Prod.fst).Nodup ∧ s.all_chunks = chunkIndex s.documents

lemma storeInv_empty : StoreInv emptyStore :=
  ⟨List.nodup_nil, rfl⟩

lemma storeInv_applyOp (s : Store) (op : StoreOp) (h : StoreInv s) :
    StoreInv (applyOp s op) := by
  cases op with
  | add id f t c =>
    exact ⟨nodup_keys_dictInsert id _ s.documents h.1, rfl⟩
  | remove id =>
    show StoreInv (remove_document s id).1
    unfold remove_document
    by_cases hc : s.documents.any (fun p => p.1 = id)
    · rw [if_pos hc]
      refine ⟨?_, rfl⟩
      have hsub : ((s.documents.filter (fun p => p.1 ≠ id)).map Prod.fst).Sublist
          (s.documents.map Prod.fst) :=
        (List.filter_sublist s.documents).map Prod.fst
      exact h.1.sublist hsub
    · rw [if_neg hc]
      exact h

lemma storeInv_applyOps (ops : List StoreOp) : StoreInv (applyOps ops) := by
  suffices h : ∀ (l : List StoreOp) (s : Store), StoreInv s → StoreInv (l.foldl applyOp s) by
    exact h ops emptyStore storeInv_empty
  intro l
  induction l with
  | nil => intro s hs; exact hs
  | cons op t ih =>
    intro s hs
    exact ih (applyOp s op) (storeInv_applyOp s op hs)

/-- C10 (confirmed).  Over every sequence of add/remove operations the
store keeps at most one document per id (an add of an existing id
replaces the stored document in place, as the final lookup conjunct
shows), and after every operation the flat chunk index all_chunks equals
the chunk index derived from exactly the currently stored documents —
so no query can observe a chunk of a replaced or removed document. -/
theorem document_store_invariant (ops : List StoreOp) :
    ((applyOps ops).documents.map Prod.fst).Nodup ∧
    (applyOps ops).all_chunks = chunkIndex (applyOps ops).documents ∧
    ∀ (id f t : String) (c : List String),
      pyLookup (applyOps (ops ++ [StoreOp.add id f t c])).documents id =
        some ⟨id, f, t, c, c.length⟩ := by
  refine ⟨(storeInv_applyOps ops).1, (storeInv_applyOps ops).2, ?_⟩
  intro id f t c
  have happ : applyOps (ops ++ [StoreOp.add id f t c]) =
      applyOp (applyOps ops) (StoreOp.add id f t c) := by
    unfold applyOps
    rw [List.foldl_append]
    rfl
  rw [happ]
  unfold applyOp add_document rebuildIndex pyLookup
  simp only
  rw [find?_dictInsert]
  rfl

/-! ### Query planner (server.py, decompose_query, lines 134–180)

Python's list(set(sub_queries)) materialises the deduplicated variants
in an arbitrary, hash-dependent order.  The embedding keeps the
generated variants in program order, deduplicates them, and lets an
arbitrary permutation (the order parameter, constrained to List.Perm
where a claim needs it) stand for the set's iteration order before the
[:4] cap is applied. -/

/-- Python str.lower(). -/
def pyLower (s : String) : String := String.mk (s.toList.map Char.toLower)

/-- Python s[:n] slicing (by characters). -/
def pyTake (s : String) (n : Nat) : String := String.mk (s.toList.take n)

/-- re.search(r'20\d{2}', query): the first occurrence of "20" followed
by two decimal digits, scanning left to right. -/
def findYear : List Char → Option String
  | [] => none
  | c :: rest =>
    if c = '2' then
      match rest with
      | '0' :: a :: b :: _ =>
        if a.isDigit && b.isDigit then some (String.mk ['2', '0', a, b])
        else findYear rest
      | _ => findYear rest
    else findYear rest

/-- The sub-query variants decompose_query generates, in program order:
the original first, then the definition / how-to / why variants, the
year or recency variant, the two impact variants, and the
capitalized-entities variant. -/
def genVariants (query : String) : List String :=
  let ql := pyLower query
  query ::
    ((if strContains ql "what are" || strContains ql "what is" then
        [query ++ " definition explanation"] else []) ++
     (if strContains ql "how" then [query ++ " guide tutorial"] else []) ++
     (if strContains ql "why" then [query ++ " reasons analysis"] else []) ++
     (match findYear query.toList with
      | some y => [query ++ " latest news " ++ y]
      | none => [query ++ " 2024 2025 latest"]) ++
     (if (["regulation", "policy", "law", "act", "impact", "effect",
            "implication"].any (fun kw => strContains ql kw)) then
        [query ++ " industry response companies",
         query ++ " expert analysis opinion"] else []) ++
     (let entities := (pyWords query).filter
        (fun w => (w.toList.headD ' ').isUpper && 2 < w.length)
      if entities.isEmpty then [] else [joinWords entities ++ " latest news"]))

/-- decompose_query: return list(set(sub_queries))[:4], with the set's
arbitrary iteration order supplied as the order parameter. -/
def decompose_query (order : List String → List String) (query : String) : List String :=
  (order (genVariants query).dedup).take 4

/-! ### Deep search (server.py, deep_search, lines 183–205)

The fetch-and-rank collaborator (search_web_standalone) and the
on_status sink are parameters; Except.error stands for a raised
exception.  Every statement of the per-sub-query loop body sits inside
the try, so a raise from either collaborator skips only that
sub-query's append; nothing outside the loop body can raise. -/

/-- The argument of on_status for sub-query i of n. -/
def statusMsg (i n : Nat) (sq : String) : String :=
  "Deep searching (" ++ toString (i + 1) ++ "/" ++ toString n ++ "): " ++
    pyTake sq 50 ++ "..."

/-- The acceptance test of deep_search's loop:
result and "No results" not in result and "Search failed" not in result. -/
def resultOk (r : String) : Bool :=
  !r.isEmpty && !strContains r "No results" && !strContains r "Search failed"

/-- The labeled section appended for an accepted sub-query result. -/
def searchLabel (sq r : String) : String := "### Search: " ++ sq ++ "\n" ++ r

/-- What one iteration of the loop appends: none when on_status or the
fetch raises, or when the result fails the acceptance test. -/
def subQueryContribution (fetch : String → Except Unit String)
    (onStatus : String → Except Unit Unit) (n i : Nat) (sq : String) : Option String :=
  match onStatus (statusMsg i n sq) with
  | .error _ => none
  | .ok _ =>
    match fetch sq with
    | .error _ => none
    | .ok r => if resultOk r then some (searchLabel sq r) else none

/-- The for-loop of deep_search over the sub-queries, carrying the
all_results accumulator. -/
def deepSearchLoop (fetch : String → Except Unit String)
    (onStatus : String → Except Unit Unit) (n : Nat) :
    List String → Nat → List String → List String
  | [], _, acc => acc
  | sq :: rest, i, acc =>
    deepSearchLoop fetch onStatus n rest (i + 1)
      (match subQueryContribution fetch onStatus n i sq with
       | some s => acc ++ [s]
       | none => acc)

/-- deep_search: decompose, run every sub-query through the guarded
loop, and fuse; the fixed sentinel when nothing was collected. -/
def deep_search (order : List String → List String) (query : String)
    (fetch : String → Except Unit String) (onStatus : String → Except Unit Unit) : String :=
  let sqs := decompose_query order query
  let all_results := deepSearchLoop fetch onStatus sqs.length sqs 0 []
  if all_results.isEmpty then "Deep search found no results."
  else
    "[DEEP SEARCH - " ++ toString sqs.length ++ " queries performed]\n\n" ++
      String.intercalate "\n\n---\n\n" all_results

/-! ### Web search result formatting (tools/info/web_search.py,
search_web_standalone step 5, lines 189–207)

Everything before step 5 (DuckDuckGo, page fetches, chunking, the FAISS
nearest-neighbour search) is collaborator work; the formatting stage is
embedded from the ranked indices and the per-chunk metadata list. -/

structure Meta where
  title : String
  url : String
  text : String
deriving DecidableEq

/-- One formatted result entry. -/
def formatEntry (m : Meta) : String :=
  "**" ++ m.title ++ "**\n" ++ "URL: " ++ m.url ++ "\n" ++
    "Content: " ++ pyTake m.text 600 ++ "..."

/-- The formatting loop: walk the ranked indices, skip out-of-range
ones and URLs already seen, and append one entry per fresh URL. -/
def formatLoop (metadata : List Meta) : List Nat → List String → List String
  | [], _ => []
  | idx :: rest, seen =>
    match metadata.get? idx with
    | none => formatLoop metadata rest seen
    | some m =>
      if m.url ∈ seen then formatLoop metadata rest seen
      else formatEntry m :: formatLoop metadata rest (m.url :: seen)

/-- The metadata entries the formatting loop keeps (same walk,
returning the chunk_info records instead of their rendering). -/
def formatKept (metadata : List Meta) : List Nat → List String → List Meta
  | [], _ => []
  | idx :: rest, seen =>
    match metadata.get? idx with
    | none => formatKept metadata rest seen
    | some m =>
      if m.url ∈ seen then formatKept metadata rest seen
      else m :: formatKept metadata rest (m.url :: seen)

/-- The string search_web_standalone returns from step 5. -/
def formatSearchOutput (indices : List Nat) (metadata : List Meta) : String :=
  let rs := formatLoop metadata indices []
  if rs.isEmpty then "No relevant content found."
  else String.intercalate "\n\n---\n\n" rs

set_option maxRecDepth 8000

/-! ### Query planner theorems -/

/-- C2 (amended).  decompose_query never returns more than 4
sub-queries, and the original query is always among the deduplicated
variants — so it is returned whenever at most 4 distinct variants were
generated.  When the heuristics generate more than 4 distinct variants,
however, the [:4] cap is applied to the set's arbitrary iteration
order, and the original query can be cut (see the counterexample), so
"always includes the original" does not hold. -/
theorem decompose_query_cap_and_origin (order : List String → List String)
    (query : String) (hperm : ∀ l : List String, (order l).Perm l) :
    (decompose_query order query).length ≤ 4 ∧
    query ∈ order ((genVariants query).dedup) ∧
    (((genVariants query).dedup).length ≤ 4 →
      query ∈ decompose_query order query) := by
  have hmem : query ∈ (genVariants query).dedup := by
    rw [List.mem_dedup]
    exact List.mem_cons_self _ _
  have hmem' : query ∈ order ((genVariants query).dedup) :=
    (hperm _).mem_iff.mpr hmem
  refine ⟨List.length_take_le _ _, hmem', fun hlen => ?_⟩
  unfold decompose_query
  rw [List.take_of_length_le (le_trans (le_of_eq (hperm _).length_eq) hlen)]
  exact hmem'

/-- Witness for C2: a query generating only two variants, with the
identity iteration order. -/
theorem decompose_query_cap_and_origin_witness :
    (decompose_query id "hello").length ≤ 4 ∧
    "hello" ∈ id ((genVariants "hello").dedup) ∧
    (((genVariants "hello").dedup).length ≤ 4 →
      "hello" ∈ decompose_query id "hello") :=
  decompose_query_cap_and_origin id "hello" (fun l => List.Perm.refl l)

/-- Counterexample for C2 as stated: the spec's own example query
generates six distinct variants; with the set materialised in reversed
generation order (a legitimate iteration order of a Python set — the
reversal is a permutation, as the first conjunct records), the [:4] cap
drops the original query from the returned sub-queries. -/
theorem decompose_query_drops_origin_cex :
    (∀ l : List String, (List.reverse l).Perm l) ∧
    ((genVariants "What is the impact of the 2023 AI Act?").dedup.length = 6) ∧
    "What is the impact of the 2023 AI Act?" ∉
      decompose_query List.reverse "What is the impact of the 2023 AI Act?" := by
  refine ⟨fun l => List.reverse_perm l, ?_, ?_⟩
  · decide
  · decide

/-! ### Deep search theorems -/

lemma deepSearchLoop_eq (fetch : String → Except Unit String)
    (onStatus : String → Except Unit Unit) (n : Nat) :
    ∀ (sqs : List String) (i : Nat) (acc : List String),
      deepSearchLoop fetch onStatus n sqs i acc =
        acc ++ (List.enumFrom i sqs).filterMap
          (fun p => subQueryContribution fetch onStatus n p.1 p.2) := by
  intro sqs
  induction sqs with
  | nil => intro i acc; simp [deepSearchLoop, List.enumFrom]
  | cons sq rest ih =>
    intro i acc
    rcases hc : subQueryContribution fetch onStatus n i sq with _ | s
    · simp [deepSearchLoop, hc, ih, List.enumFrom, List.filterMap_cons]
    · simp [deepSearchLoop, hc, ih, List.enumFrom, List.filterMap_cons]

/-- C5 (confirmed).  deep_search is total for every behaviour of the
collaborators: its output is the fusion of the per-sub-query
contributions, where each contribution depends only on that sub-query's
own collaborator outcomes (first conjunct), a raised exception
contributes nothing (second conjunct), and when every sub-query raises
or yields nothing the fixed "Deep search found no results." sentinel is
returned instead of an error (third conjunct). -/
theorem deep_search_absorbs_failures (order : List String → List String)
    (query : String) (fetch : String → Except Unit String)
    (onStatus : String → Except Unit Unit) :
    (deep_search order query fetch onStatus =
      (if ((List.enumFrom 0 (decompose_query order query)).filterMap
            (fun p => subQueryContribution fetch onStatus
              (decompose_query order query).length p.1 p.2)).isEmpty then
        "Deep search found no results."
       else
        "[DEEP SEARCH - " ++ toString (decompose_query order query).length ++
          " queries performed]\n\n" ++
          String.intercalate "\n\n---\n\n"
            ((List.enumFrom 0 (decompose_query order query)).filterMap
              (fun p => subQueryContribution fetch onStatus
                (decompose_query order query).length p.1 p.2)))) ∧
    (∀ n i sq, fetch sq = Except.error () →
      subQueryContribution fetch onStatus n i sq = none) ∧
    ((∀ sq, fetch sq = Except.error () ∨ fetch sq = Except.ok "") →
      deep_search order query fetch onStatus = "Deep search found no results.") := by
  have hcontrib : ∀ n i sq, fetch sq = Except.error () →
      subQueryContribution fetch onStatus n i sq = none := by
    intro n i sq hf
    unfold subQueryContribution
    cases ho : onStatus (statusMsg i n sq) with
    | error e => rfl
    | ok u => rw [hf]
  have hchar : deep_search order query fetch onStatus =
      (if ((List.enumFrom 0 (decompose_query order query)).filterMap
            (fun p => subQueryContribution fetch onStatus
              (decompose_query order query).length p.1 p.2)).isEmpty then
        "Deep search found no results."
       else
        "[DEEP SEARCH - " ++ toString (decompose_query order query).length ++
          " queries performed]\n\n" ++
          String.intercalate "\n\n---\n\n"
            ((List.enumFrom 0 (decompose_query order query)).filterMap
              (fun p => subQueryContribution fetch onStatus
                (decompose_query order query).length p.1 p.2))) := by
    simp only [deep_search, deepSearchLoop_eq, List.nil_append]
  refine ⟨hchar, hcontrib, ?_⟩
  intro hall
  have hnone : ∀ p ∈ List.enumFrom 0 (decompose_query order query),
      subQueryContribution fetch onStatus
        (decompose_query order query).length p.1 p.2 = none := by
    intro p _
    rcases hall p.2 with hf | hf
    · exact hcontrib _ _ _ hf
    · unfold subQueryContribution
      cases ho : onStatus (statusMsg p.1 (decompose_query order query).length p.2) with
      | error e => rfl
      | ok u =>
        have hro : resultOk "" = false := by decide
        simp [hf, hro]
  rw [hchar, List.filterMap_eq_nil_iff.mpr hnone]
  rfl

/-- Witness for C5: a fetch collaborator that raises on every
sub-query; deep_search returns the sentinel rather than propagating. -/
theorem deep_search_absorbs_failures_witness :
    deep_search id "hello" (fun _ => Except.error ()) (fun _ => Except.ok ()) =
      "Deep search found no results." :=
  (deep_search_absorbs_failures id "hello" (fun _ => Except.error ())
    (fun _ => Except.ok ())).2.2 (fun _ => Or.inl rfl)

/-- C6 (code bug).  The fusion filter tests the substrings "No results"
and "Search failed", but the fetch-and-rank collaborator's actual
no-result sentinels ("No search results found. Please try a different
query." from the DuckDuckGo step, "No relevant content found." from the
formatting step) contain neither, so they pass the acceptance test:
when every sub-query comes back with the collaborator's no-result
sentinel, the fused output contains a labeled section holding that
sentinel instead of being the defined "Deep search found no results."
sentinel the claim requires. -/
theorem deep_search_sentinel_not_excluded :
    resultOk "No search results found. Please try a different query." = true ∧
    resultOk "No relevant content found." = true ∧
    strContains
      (deep_search id "hello"
        (fun _ => Except.ok "No search results found. Please try a different query.")
        (fun _ => Except.ok ()))
      "### Search: hello\nNo search results found." = true ∧
    deep_search id "hello"
      (fun _ => Except.ok "No search results found. Please try a different query.")
      (fun _ => Except.ok ()) ≠ "Deep search found no results." := by
  refine ⟨by decide, by decide, by decide, by decide⟩

/-! ### Web search URL de-duplication theorems -/

lemma formatKept_spec (metadata : List Meta) :
    ∀ (indices : List Nat) (seen : List String),
      ((formatKept metadata indices seen).map Meta.url).Nodup ∧
      (∀ u ∈ (formatKept metadata indices seen).map Meta.url, u ∉ seen) ∧
      formatLoop metadata indices seen =
        (formatKept metadata indices seen).map formatEntry := by
  intro indices
  induction indices with
  | nil => intro seen; exact ⟨List.nodup_nil, by simp [formatKept], rfl⟩
  | cons idx rest ih =>
    intro seen
    rcases hg : metadata.get? idx with _ | m
    · simpa only [formatKept, formatLoop, hg] using ih seen
    · by_cases hm : m.url ∈ seen
      · simpa only [formatKept, formatLoop, hg, if_pos hm] using ih seen
      · obtain ⟨h1, h2, h3⟩ := ih (m.url :: seen)
        simp only [formatKept, formatLoop, hg, if_neg hm]
        refine ⟨?_, ?_, ?_⟩
        · rw [List.map_cons]
          exact List.nodup_cons.mpr
            ⟨fun hmem => (h2 _ hmem) (List.mem_cons_self _ _), h1⟩
        · intro u hu hseen
          rw [List.map_cons] at hu
          rcases List.mem_cons.mp hu with rfl | hu'
          · exact hm hseen
          · exact h2 u hu' (List.mem_cons_of_mem _ hseen)
        · rw [List.map_cons, h3]

/-- C7 (amended).  Within ONE call of search_web_standalone the
formatting loop keeps at most one entry per source URL: the kept
metadata records have pairwise distinct URLs, and the rendered entries
are exactly their renderings.  The de-duplication is per call only —
across the sections deep_search fuses, a URL can recur (see the
counterexample) — so "no two entries of the fused output share a source
locator" holds only within each sub-query's section. -/
theorem search_results_url_dedup (metadata : List Meta) (indices : List Nat) :
    ((formatKept metadata indices []).map Meta.url).Nodup ∧
    formatLoop metadata indices [] = (formatKept metadata indices []).map formatEntry :=
  ⟨(formatKept_spec metadata indices []).1,
   (formatKept_spec metadata indices []).2.2⟩

/-- Counterexample for C7 as stated: one formatted block (built by the
embedded step-5 formatter) mentions its source URL once, but when two
sub-queries of one deep search both return that block, the fused output
contains the entry — and its URL line — twice: the fusion stage does
not de-duplicate source locators across sub-queries. -/
theorem deep_search_url_dup_cex :
    strCount (formatSearchOutput [0] [⟨"T", "http://x.com", "body"⟩])
      "URL: http://x.com" = 1 ∧
    strCount
      (deep_search id "hello"
        (fun _ => Except.ok (formatSearchOutput [0] [⟨"T", "http://x.com", "body"⟩]))
        (fun _ => Except.ok ()))
      "URL: http://x.com" = 2 := by
  refine ⟨by decide, by decide⟩
